import Mathlib

/-!
# Verification of the gaba keyring/vault layer

Shallow embedding of the `gaba` repository:

* `src/src/util.ts` — pure utility functions (`BNToHex`, `hexToBN`,
  `normalizeMessageData`, `safelyExecute`, `validateTypedSignMessageDataV1`,
  `validateTypedSignMessageDataV3`), embedded directly from the code.
* The Keyring Controller (whose implementation file is absent from the
  sources; only its tests are), modelled from the specification's words.

Machine-level collaborators (the `ethereumjs-util`, `eth-sig-util` and
`jsonschema` libraries, and the injected crypto provider) are out-of-scope
external collaborators and are represented abstractly where the code calls
into them.
-/

namespace Gaba

/-! ## Hexadecimal characters and numerals

These embed the behaviour of `BN.toString(16)` / `new BN(_, 16)` from bn.js
and of `addHexPrefix` / `stripHexPrefix` / `bufferToHex` from
`ethereumjs-util`, as used by `src/src/util.ts`. -/

/-- A hexadecimal digit character, as matched by the regex
`/^[0-9A-Fa-f]+$/` (`hexRe` in `src/src/util.ts`). -/
def isHexCh (c : Char) : Bool :=
  (48 ≤ c.toNat && c.toNat ≤ 57) ||
  (65 ≤ c.toNat && c.toNat ≤ 70) ||
  (97 ≤ c.toNat && c.toNat ≤ 102)

/-- The lowercase hexadecimal digit for a value `d < 16`, as produced by
`BN.toString(16)` and `Buffer.toString('hex')`. -/
def hexDigitChar (d : Nat) : Char :=
  if d < 10 then Char.ofNat (48 + d) else Char.ofNat (87 + d)

/-- Numeric value of a hexadecimal digit character (both cases), as parsed
by `new BN(str, 16)`. Non-hex characters map to 0 (never reached on the
round-trip inputs). -/
def hexCharVal (c : Char) : Nat :=
  if 48 ≤ c.toNat && c.toNat ≤ 57 then c.toNat - 48
  else if 97 ≤ c.toNat && c.toNat ≤ 102 then c.toNat - 87
  else if 65 ≤ c.toNat && c.toNat ≤ 70 then c.toNat - 55
  else 0

/-- Hex digits of `n`, least significant first (empty for 0). -/
def natToHexRev : Nat → List Char
  | 0 => []
  | n + 1 => hexDigitChar ((n + 1) % 16) :: natToHexRev ((n + 1) / 16)
termination_by n => n
decreasing_by exact Nat.div_lt_self (Nat.succ_pos n) (by omega)

/-- `BN.toString(16)`: lowercase hex rendering of a non-negative integer,
`"0"` for zero, no leading zeros. -/
def natToHex (n : Nat) : String :=
  String.mk (if n = 0 then ['0'] else (natToHexRev n).reverse)

/-- `isHexPrefixed` from `ethereumjs-util`: does the string start with
`"0x"`? -/
def hasHexPfx (s : String) : Bool :=
  match s.data with
  | c0 :: c1 :: _ => c0 == '0' && c1 == 'x'
  | _ => false

/-- `addHexPrefix` from `ethereumjs-util`: prepend `"0x"` unless already
present. -/
def addHexPfx (s : String) : String :=
  if hasHexPfx s then s else String.mk ('0' :: 'x' :: s.data)

/-- `stripHexPrefix` from `ethereumjs-util`: drop a leading `"0x"` when
present. -/
def stripHexPfx (s : String) : String :=
  match s.data with
  | c0 :: c1 :: rest => if c0 == '0' && c1 == 'x' then String.mk rest else s
  | _ => s

/-- Parse a string of hex digits as a non-negative integer, most
significant digit first — `new BN(str, 16)` on its valid inputs. -/
def hexStrToNat (s : String) : Nat :=
  s.data.foldl (fun a c => 16 * a + hexCharVal c) 0

/-- `BNToHex` (`src/src/util.ts` line 30): convert a BN to a
`'0x'`-prefixed hex string. -/
def BNToHex (n : Nat) : String :=
  addHexPfx (natToHex n)

/-- `hexToBN` (`src/src/util.ts` line 79): strip an optional `'0x'` prefix
and parse base 16. -/
def hexToBN (s : String) : Nat :=
  hexStrToNat (stripHexPfx s)

/-! ## `normalizeMessageData`

Embeds `normalizeMessageData` from `src/src/util.ts` line 182 together with
`bufferToHex` and `Buffer.from(data, 'utf8')` from its dependencies.  Bytes
are `Nat` values; the `% 16` in `byteToHexChars` is the byte/nibble split
performed by `Buffer.toString('hex')`. -/

/-- The two lowercase hex digits of one byte, as emitted by
`Buffer.toString('hex')`. -/
def byteToHexChars (b : Nat) : List Char :=
  [hexDigitChar (b / 16 % 16), hexDigitChar (b % 16)]

/-- `bufferToHex` from `ethereumjs-util`: `'0x' + buf.toString('hex')`. -/
def bufferToHex (bytes : List Nat) : String :=
  String.mk ('0' :: 'x' :: bytes.flatMap byteToHexChars)

/-- UTF-8 encoding of one code point, as performed by
`Buffer.from(_, 'utf8')`. -/
def utf8EncodeCh (c : Char) : List Nat :=
  let v := c.toNat
  if v < 128 then [v]
  else if v < 2048 then [192 + v / 64, 128 + v % 64]
  else if v < 65536 then [224 + v / 4096, 128 + v / 64 % 64, 128 + v % 64]
  else [240 + v / 262144, 128 + v / 4096 % 64, 128 + v / 64 % 64, 128 + v % 64]

/-- `Buffer.from(data, 'utf8')`: the UTF-8 bytes of a string. -/
def utf8Encode (s : String) : List Nat :=
  s.data.flatMap utf8EncodeCh

/-- `normalizeMessageData` (`src/src/util.ts` line 182): strip an optional
`'0x'` prefix; if what remains matches `/^[0-9A-Fa-f]+$/`, return it
re-prefixed with `'0x'`; otherwise return the `'0x'`-prefixed hex encoding
of the original string's UTF-8 bytes. -/
def normalizeMessageData (data : String) : String :=
  let stripped := stripHexPfx data
  if stripped.data ≠ [] ∧ stripped.data.all isHexCh = true then addHexPfx stripped
  else bufferToHex (utf8Encode data)

/-! ## `safelyExecute`

Embeds `safelyExecute` from `src/src/util.ts` line 126.  The promise
returned by `operation` is modelled as `Except ε α` (resolve / reject);
the promise returned by `safelyExecute` as `Except ε (Option α)`, where
`none` is JavaScript's `undefined`.  `retried` records the arguments passed
to the `retry` callback; the `console.error` call under `logError` has no
modelled effect. -/

structure SafeResult (ε α : Type) where
  outcome : Except ε (Option α)
  retried : List ε

/-- `safelyExecute` (`src/src/util.ts` line 126): run `operation` inside
`try`; on resolution return its value; on rejection log (if asked), call
`retry` with the error when supplied, and fall through returning
`undefined`. -/
def safelyExecute {ε α : Type} (operation : Except ε α) (logErr : Bool)
    (retry : Option (ε → Unit)) : SafeResult ε α :=
  match operation with
  | .ok v => ⟨.ok (some v), []⟩
  | .error e =>
    match retry with
    | some _ => ⟨.ok none, [e]⟩
    | none => ⟨.ok none, []⟩

/-! ## Typed-message data and its validators

`TypedMessageParams` (from `src/message-manager/TypedMessageManager`, absent
from the sources) carries `from` (a string) and `data`, which at runtime is
either a string (V3) or an array of `{type, name, value}` entries (V1).
JavaScript truthiness: an empty string is falsy, every array is truthy.

The collaborators called by the validators — `isValidAddress` from
`ethereumjs-util`, `JSON.parse`, `jsonschema.validate` against
`sigUtil.TYPED_MESSAGE_SCHEMA`, and `sigUtil.typedSignatureHash` — are
external libraries and are abstracted into a `CryptoEnv`:
`parseJSON` returns `none` when `JSON.parse` would throw,
`schemaNumErrors j` is `validation.errors.length`, and `typedSigHash`
returns `none` when `typedSignatureHash` would throw. -/

/-- One `{type, name, value}` entry of a V1 typed message. -/
structure EntryV1 where
  type : String
  name : String
  value : String
deriving DecidableEq

/-- The runtime shape of `TypedMessageParams.data`. -/
inductive MsgData where
  | str (s : String)
  | arr (entries : List EntryV1)
deriving DecidableEq

/-- `TypedMessageParams`: `fromAddr` embeds the source's `from` field
(`from` is a Lean keyword). -/
structure TypedMessageParams where
  fromAddr : String
  data : MsgData
deriving DecidableEq

/-- The closed `version` set of `signTypedMessage` (§4.1). -/
inductive TypedVersion where
  | V1
  | V3
deriving DecidableEq

/-- Abstract interface to the external validation/crypto libraries.
`J` is the type of parsed JSON values. -/
structure CryptoEnv (J : Type) where
  isValidAddress : String → Bool
  parseJSON : String → Option J
  schemaNumErrors : J → Nat
  typedSigHash : List EntryV1 → Option String

/-- `validateTypedSignMessageDataV1` (`src/src/util.ts` line 216): checks
`from` is a truthy string passing `isValidAddress`, that `data` is truthy
and an array, and that `sigUtil.typedSignatureHash(data)` does not throw
(rethrown as "Expected EIP712 typed data."). -/
def validateTypedSignMessageDataV1 {J : Type} (env : CryptoEnv J)
    (messageData : TypedMessageParams) : Except String Unit :=
  if messageData.fromAddr = "" ∨ env.isValidAddress messageData.fromAddr = false then
    .error ("Invalid from address: " ++ messageData.fromAddr ++ " must be a valid string.")
  else
    match messageData.data with
    | .str _ => .error "Invalid message data: must be a valid array."
    | .arr l =>
      match env.typedSigHash l with
      | some _ => .ok ()
      | none => .error "Expected EIP712 typed data."

/-- `validateTypedSignMessageDataV3` (`src/src/util.ts` line 236): checks
`from` is a truthy string passing `isValidAddress`, that `data` is a truthy
string, that `JSON.parse(data)` succeeds, and that `jsonschema.validate`
against `sigUtil.TYPED_MESSAGE_SCHEMA` reports zero errors. -/
def validateTypedSignMessageDataV3 {J : Type} (env : CryptoEnv J)
    (messageData : TypedMessageParams) : Except String Unit :=
  if messageData.fromAddr = "" ∨ env.isValidAddress messageData.fromAddr = false then
    .error ("Invalid from address: " ++ messageData.fromAddr ++ " must be a valid string.")
  else
    match messageData.data with
    | .arr _ => .error "Invalid message data: must be a valid array."
    | .str s =>
      if s = "" then .error "Invalid message data: must be a valid array."
      else
        match env.parseJSON s with
        | none => .error "Data must be passed as a valid JSON string."
        | some j =>
          if env.schemaNumErrors j > 0 then
            .error "Data must conform to EIP-712 schema. See https://git.io/fNtcx."
          else .ok ()

/-! ## The Keyring Controller

Modelled from the spec: the Keyring Controller implementation file
(`src/keyring/KeyringController.ts`) is not among the sources — only its
tests are — so the controller's data model and operations below follow
sections 3, 4.1 and 7 of the specification.  Secret keyring material is
represented by the keyrings' presence in memory (populated on unlock,
cleared to `[]` on lock); the crypto provider is an abstract `Provider`;
the encrypted vault is a `VaultBlob` that decrypts exactly under the
password it was encrypted with. -/

/-- Modelled from the spec: a keyring — a type tag plus an ordered sequence
of account addresses. -/
structure Keyring where
  type : String
  accounts : List String
deriving DecidableEq

/-- Modelled from the spec: the password-encrypted serialized form of all
keyrings.  Decryption succeeds exactly under `password` (the provider
contract `decrypt(blob, password) -> plaintext | CryptoError`). -/
structure VaultBlob where
  password : String
  contents : List Keyring
deriving DecidableEq

/-- Modelled from the spec: the in-memory state of one Keyring Controller
instance. -/
structure KCState where
  isUnlocked : Bool
  password : Option String
  vault : Option VaultBlob
  keyrings : List Keyring
deriving DecidableEq

/-- The secret-free keyring snapshot published in `PublicState`. -/
structure KeyringSnapshot where
  type : String
  accounts : List String
deriving DecidableEq

/-- Modelled from the spec: the externally visible `PublicState`
`(isUnlocked, keyringTypes, keyrings)`. -/
structure PublicState where
  isUnlocked : Bool
  keyringTypes : List String
  keyrings : List KeyringSnapshot
deriving DecidableEq

/-- The `'HD Key Tree'` keyring type tag. -/
def hdKeyTreeType : String := "HD Key Tree"

/-- The `'Simple Key Pair'` (raw-imported) keyring type tag. -/
def simpleKeyPairType : String := "Simple Key Pair"

/-- The set of known keyring type tags published as `keyringTypes`. -/
def keyringTypesList : List String := [hdKeyTreeType, simpleKeyPairType]

/-- Modelled from the spec: `PublicState` is recomputed from the live
keyring sequence. -/
def getState (s : KCState) : PublicState :=
  ⟨s.isUnlocked, keyringTypesList,
    s.keyrings.map (fun k => ⟨k.type, k.accounts⟩)⟩

/-- Modelled from the spec §7 error taxonomy. -/
inductive KError where
  | validation (msg : String)
  | crypto (msg : String)
  | notFound (msg : String)
  | stateErr (msg : String)
deriving DecidableEq

/-- Modelled from the spec: the injected crypto provider (§6): entropy,
mnemonic validation, account derivation, private-key import,
encrypted-JSON decryption and typed signing. -/
structure Provider where
  freshAccount : String
  validSeed : String → Bool
  deriveFromSeed : String → String
  deriveNext : List String → String
  privToAddr : String → String
  decryptJson : String → String → Except String String
  signTyped : String → MsgData → TypedVersion → Except String String

/-- The initial (Locked, empty) controller state. -/
def initialState : KCState := ⟨false, none, none, []⟩

/-- Modelled from the spec: persistence — re-encrypt the current keyring
sequence under the stored password and rewrite the vault. -/
def persist (s : KCState) : KCState :=
  match s.password with
  | some p => { s with vault := some ⟨p, s.keyrings⟩ }
  | none => s

/-- Modelled from the spec: `createNewVaultAndKeychain(password)` —
fresh entropy, one primary HD-derived keyring with one account, encrypt
and persist, transition to Unlocked. -/
def createNewVaultAndKeychain (P : Provider) (pw : String) (s : KCState) : KCState :=
  persist { s with
    isUnlocked := true
    password := some pw
    keyrings := [⟨hdKeyTreeType, [P.freshAccount]⟩] }

/-- Modelled from the spec: `createNewVaultAndRestore(password, seedPhrase)`
— like keychain creation but derived from a mnemonic; ValidationError on a
malformed phrase. -/
def createNewVaultAndRestore (P : Provider) (pw seed : String) (s : KCState) :
    Except KError KCState :=
  if P.validSeed seed then
    .ok (persist { s with
      isUnlocked := true
      password := some pw
      keyrings := [⟨hdKeyTreeType, [P.deriveFromSeed seed]⟩] })
  else .error (.validation "Seed phrase is invalid.")

/-- Modelled from the spec: `submitPassword(password)` — decrypt the
persisted vault; on success repopulate the in-memory keyrings and unlock;
on decryption failure a CryptoError, state unchanged. -/
def submitPassword (s : KCState) (pw : String) : Except KError KCState :=
  match s.vault with
  | none => .error (.crypto "Cannot unlock without a previous vault.")
  | some b =>
    if pw = b.password then
      .ok { s with isUnlocked := true, password := some pw, keyrings := b.contents }
    else .error (.crypto "Incorrect password")

/-- Modelled from the spec: `setLocked()` — discard all in-memory secret
material, transition to Locked; the persisted vault is untouched. -/
def setLocked (s : KCState) : KCState :=
  { s with isUnlocked := false, keyrings := [] }

/-- Modelled from the spec: `addNewAccount()` — derive the next sequential
account from the primary (first) keyring, append, persist. -/
def addNewAccount (P : Provider) (s : KCState) : Except KError KCState :=
  if s.isUnlocked = true then
    match s.keyrings with
    | [] => .error (.stateErr "No primary keyring")
    | k :: rest =>
      .ok (persist { s with
        keyrings := ⟨k.type, k.accounts ++ [P.deriveNext k.accounts]⟩ :: rest })
  else .error (.stateErr "Operation requires an unlocked controller")

/-- Modelled from the spec: a "validly-hex-encoded private key" — 32 bytes,
i.e. exactly 64 hexadecimal characters. -/
def isValidPrivateKeyHex (s : String) : Bool :=
  s.data.length == 64 && s.data.all isHexCh

/-- The closed set of import strategies (§4.1). -/
inductive ImportStrategy where
  | privateKey
  | json
deriving DecidableEq

/-- Modelled from the spec: `importAccountWithStrategy(strategy, args)` —
dispatch over the strategy set; `privateKey` requires a non-empty, validly
hex-encoded key and appends a raw-imported-pair keyring with the single
derived address; `json` decrypts via the provider, surfacing its message as
a CryptoError on failure.  Appends the new keyring and persists. -/
def importAccountWithStrategy (P : Provider) (s : KCState)
    (strategy : ImportStrategy) (args : List String) : Except KError KCState :=
  if s.isUnlocked = true then
    match strategy with
    | .privateKey =>
      match args with
      | [] => .error (.validation "Cannot import an empty key.")
      | pk :: _ =>
        if pk = "" then .error (.validation "Cannot import an empty key.")
        else if isValidPrivateKeyHex pk then
          .ok (persist { s with
            keyrings := s.keyrings ++ [⟨simpleKeyPairType, [P.privToAddr pk]⟩] })
        else .error (.validation "Cannot import invalid private key.")
    | .json =>
      match args with
      | jsonInput :: jsonPw :: _ =>
        match P.decryptJson jsonInput jsonPw with
        | .ok pk =>
          .ok (persist { s with
            keyrings := s.keyrings ++ [⟨simpleKeyPairType, [P.privToAddr pk]⟩] })
        | .error m => .error (.crypto m)
      | _ => .error (.validation "Cannot import with missing arguments.")
  else .error (.stateErr "Operation requires an unlocked controller")

/-- Modelled from the spec: scan the keyrings for the one owning `addr`
(the head keyring is the primary one); remove the address from it; if the
keyring becomes empty and is not the primary keyring, remove the keyring
entirely.  `none` when no keyring owns the address. -/
def removeFromKeyrings : List Keyring → String → Bool → Option (List Keyring)
  | [], _, _ => none
  | k :: rest, addr, isPrim =>
    if addr ∈ k.accounts then
      let k' : Keyring := ⟨k.type, k.accounts.filter (fun a => a != addr)⟩
      some (if k'.accounts.isEmpty && !isPrim then rest else k' :: rest)
    else
      (removeFromKeyrings rest addr false).map (fun ks => k :: ks)

/-- Modelled from the spec: `removeAccount(address)` — NotFoundError if no
keyring owns the address; otherwise remove it (dropping an emptied
non-primary keyring), persist. -/
def removeAccount (s : KCState) (addr : String) : Except KError KCState :=
  if s.isUnlocked = true then
    match removeFromKeyrings s.keyrings addr true with
    | none => .error (.notFound "No keyring found for the requested account.")
    | some ks => .ok (persist { s with keyrings := ks })
  else .error (.stateErr "Operation requires an unlocked controller")

/-- Modelled from the spec: `getAccounts()` — the concatenation, in keyring
order, of each keyring's account list. -/
def getAccounts (s : KCState) : List String :=
  s.keyrings.flatMap Keyring.accounts

/-- The fixed context tag prefixed to every typed-signing failure. -/
def typedSignContextTag : String := "Keyring Controller signTypedMessage:"

/-- Modelled from the spec: the body of `signTypedMessage` before error
re-wrapping — validate the payload for the requested version
(via the validators of `src/src/util.ts`), locate the keyring owning
`from`, then delegate signing to the provider. -/
def signTypedMessageInner {J : Type} (env : CryptoEnv J) (P : Provider)
    (s : KCState) (md : TypedMessageParams) (v : TypedVersion) : Except String String :=
  match (match v with
         | .V1 => validateTypedSignMessageDataV1 env md
         | .V3 => validateTypedSignMessageDataV3 env md) with
  | .error m => .error m
  | .ok _ =>
    if md.fromAddr ∈ getAccounts s then P.signTyped md.fromAddr md.data v
    else .error "No keyring found for the requested account."

/-- Modelled from the spec: `signTypedMessage(params, version)` — any
failure (locate-keyring, schema, provider) is re-wrapped into a single
error whose message is prefixed with the fixed context tag. -/
def signTypedMessage {J : Type} (env : CryptoEnv J) (P : Provider)
    (s : KCState) (md : TypedMessageParams) (v : TypedVersion) : Except String String :=
  match signTypedMessageInner env P s md v with
  | .ok sig => .ok sig
  | .error m => .error (typedSignContextTag ++ " " ++ m)

/-- Modelled from the spec: the states reachable from the initial Locked
state through the controller's mutating operations (successful calls). -/
inductive Reachable (P : Provider) : KCState → Prop where
  | init : Reachable P initialState
  | createKeychain (s : KCState) (pw : String) :
      Reachable P s → Reachable P (createNewVaultAndKeychain P pw s)
  | createRestore (s : KCState) (pw seed : String) (s' : KCState) :
      Reachable P s → createNewVaultAndRestore P pw seed s = .ok s' →
      Reachable P s'
  | submit (s : KCState) (pw : String) (s' : KCState) :
      Reachable P s → submitPassword s pw = .ok s' → Reachable P s'
  | lock (s : KCState) :
      Reachable P s → Reachable P (setLocked s)
  | newAccount (s s' : KCState) :
      Reachable P s → addNewAccount P s = .ok s' → Reachable P s'
  | importAcc (s : KCState) (strategy : ImportStrategy) (args : List String)
      (s' : KCState) :
      Reachable P s → importAccountWithStrategy P s strategy args = .ok s' →
      Reachable P s'
  | removeAcc (s : KCState) (addr : String) (s' : KCState) :
      Reachable P s → removeAccount s addr = .ok s' → Reachable P s'

/-- The controller's state invariant: the lock bit mirrors the in-memory
keyring sequence, an unlocked controller's vault is the encryption of its
current keyrings under its stored password, and the vault never holds an
empty keyring sequence. -/
def Inv (s : KCState) : Prop :=
  (s.isUnlocked = true ↔ s.keyrings ≠ []) ∧
  (s.isUnlocked = true → ∃ p, s.password = some p ∧ s.vault = some ⟨p, s.keyrings⟩) ∧
  (∀ b, s.vault = some b → b.contents ≠ [])

/-- A deterministic stand-in provider used to instantiate the theorems at
concrete inputs. -/
def trivProvider : Provider where
  freshAccount := "0xa0"
  validSeed := fun _ => true
  deriveFromSeed := fun _ => "0xa1"
  deriveNext := fun _ => "0xa2"
  privToAddr := fun _ => "0x51"
  decryptJson := fun _ _ => .ok "pk"
  signTyped := fun _ _ _ => .ok "sig"

/-- A stand-in crypto environment (JSON values are `Unit`) used to
instantiate the theorems at concrete inputs.  Its `typedSigHash` rejects
the empty entry list, as `eth-sig-util`'s `typedSignatureHash` does. -/
def trivEnv : CryptoEnv Unit where
  isValidAddress := fun a => a != ""
  parseJSON := fun s => if s == "j" then some () else none
  schemaNumErrors := fun _ => 0
  typedSigHash := fun l => if l.isEmpty then none else some "h"

/-- A 64-hex-character private key used to instantiate the import theorem
at a concrete input. -/
def sampleKey : String :=
  "1e4e6a4c0c077f4ae8ddfbf372918e61dd0fb4a4cfa592cb16e7546d505e68fc"

/-- An unlocked two-keyring state used to instantiate the `removeAccount`
theorem at a concrete input. -/
def twoKeyringState : KCState :=
  ⟨true, some "p",
    some ⟨"p", [⟨hdKeyTreeType, ["0xa"]⟩, ⟨simpleKeyPairType, ["0xb"]⟩]⟩,
    [⟨hdKeyTreeType, ["0xa"]⟩, ⟨simpleKeyPairType, ["0xb"]⟩]⟩

/-! ## Theorems -/

/-! ### Hex round trip (C9) -/

theorem hexCharVal_hexDigitChar : ∀ d, d < 16 → hexCharVal (hexDigitChar d) = d := by
  decide

theorem hexDigitChar_ne_x : ∀ d, d < 16 → hexDigitChar d ≠ 'x' := by
  decide

theorem isHexCh_hexDigitChar : ∀ d, d < 16 → isHexCh (hexDigitChar d) = true := by
  decide

/-- Every character emitted by `natToHexRev` is a digit for some value
below 16. -/
theorem natToHexRev_mem (n : Nat) :
    ∀ c ∈ natToHexRev n, ∃ d, d < 16 ∧ c = hexDigitChar d := by
  induction n using Nat.strong_induction_on with
  | _ n ih =>
    match n with
    | 0 => intro c hc; simp [natToHexRev] at hc
    | Nat.succ m =>
      intro c hc
      rw [natToHexRev] at hc
      rcases List.mem_cons.mp hc with h | h
      · exact ⟨(m + 1) % 16, Nat.mod_lt _ (by omega), h⟩
      · exact ih ((m + 1) / 16) (Nat.div_lt_self (Nat.succ_pos m) (by omega)) c h

/-- Folding the digit-accumulation step over the reversed digit list
recovers the number. -/
theorem foldr_natToHexRev (n : Nat) :
    (natToHexRev n).foldr (fun c a => 16 * a + hexCharVal c) 0 = n := by
  induction n using Nat.strong_induction_on with
  | _ n ih =>
    match n with
    | 0 => simp [natToHexRev]
    | Nat.succ m =>
      rw [natToHexRev, List.foldr_cons,
        ih ((m + 1) / 16) (Nat.div_lt_self (Nat.succ_pos m) (by omega)),
        hexCharVal_hexDigitChar _ (Nat.mod_lt _ (by omega))]
      omega

/-- `natToHex` never starts with `"0x"`: its second character, when it
exists, is a hex digit, never `'x'`. -/
theorem hasHexPfx_natToHex (n : Nat) : hasHexPfx (natToHex n) = false := by
  unfold natToHex hasHexPfx
  by_cases h : n = 0
  · simp [h]
  · simp only [h, if_false]
    cases hrev : (natToHexRev n).reverse with
    | nil => rfl
    | cons c0 tail =>
      cases tail with
      | nil => rfl
      | cons c1 tail' =>
        have hc1 : c1 ∈ natToHexRev n := by
          have hm : c1 ∈ (natToHexRev n).reverse := by rw [hrev]; simp
          simpa using hm
        obtain ⟨d, hd, rfl⟩ := natToHexRev_mem n c1 hc1
        have hx : hexDigitChar d ≠ 'x' := hexDigitChar_ne_x d hd
        simp [hx]

/-- Stripping after adding the prefix is the identity on unprefixed
strings. -/
theorem stripHexPfx_addHexPfx (s : String) (h : hasHexPfx s = false) :
    stripHexPfx (addHexPfx s) = s := by
  unfold addHexPfx
  rw [h]
  simp only [Bool.false_eq_true, if_false]
  unfold stripHexPfx
  cases s with
  | mk data => simp

/-- C9 core: parsing the hex rendering of `n` recovers `n`. -/
theorem hexStrToNat_natToHex (n : Nat) : hexStrToNat (natToHex n) = n := by
  unfold hexStrToNat natToHex
  by_cases h : n = 0
  · simp [h, hexCharVal]
  · simp only [h, if_false]
    show ((natToHexRev n).reverse).foldl (fun a c => 16 * a + hexCharVal c) 0 = n
    rw [List.foldl_reverse]
    exact foldr_natToHexRev n

/-- C9: for every non-negative big integer `n`, `hexToBN (BNToHex n) = n`:
`BNToHex` renders `n` as a `'0x'`-prefixed base-16 string and `hexToBN`
strips the prefix and parses base 16, so the two form a round trip. -/
theorem hexToBN_BNToHex (n : Nat) : hexToBN (BNToHex n) = n := by
  unfold hexToBN BNToHex
  rw [stripHexPfx_addHexPfx _ (hasHexPfx_natToHex n)]
  exact hexStrToNat_natToHex n

/-! ### `normalizeMessageData` (C10) -/

theorem isHexCh_x_false : isHexCh 'x' = false := by decide

/-- Every character of a byte-list hex rendering is a hex digit. -/
theorem bufferToHex_all_hex (bytes : List Nat) :
    (bytes.flatMap byteToHexChars).all isHexCh = true := by
  rw [List.all_eq_true]
  intro c hc
  rw [List.mem_flatMap] at hc
  obtain ⟨b, _, hcb⟩ := hc
  unfold byteToHexChars at hcb
  simp only [List.mem_cons, List.not_mem_nil, or_false] at hcb
  rcases hcb with h | h
  · exact h ▸ isHexCh_hexDigitChar _ (Nat.mod_lt _ (by omega))
  · exact h ▸ isHexCh_hexDigitChar _ (Nat.mod_lt _ (by omega))

/-- A non-empty all-hex string is not `'0x'`-prefixed (its second
character, if any, cannot be `'x'`). -/
theorem hasHexPfx_of_allHex (s : String) (h : s.data.all isHexCh = true) :
    hasHexPfx s = false := by
  unfold hasHexPfx
  cases hd : s.data with
  | nil => rfl
  | cons c0 tail =>
    cases tail with
    | nil => rfl
    | cons c1 tail' =>
      have hmem : isHexCh c1 = true := by
        rw [List.all_eq_true] at h
        exact h c1 (by rw [hd]; simp)
      have hne : c1 ≠ 'x' := by
        intro he; rw [he, isHexCh_x_false] at hmem; cases hmem
      simp [hne]

/-- C10: `normalizeMessageData` always returns a `'0x'`-prefixed hex
string; when the input stripped of an optional `'0x'` prefix consists only
of hexadecimal digits (and is non-empty, per the regex `+`), it returns
that stripped string re-prefixed with `'0x'`, and otherwise it returns the
`'0x'`-prefixed hex encoding of the input's UTF-8 bytes. -/
theorem normalizeMessageData_spec (data : String) :
    (∃ t : List Char, (normalizeMessageData data).data = '0' :: 'x' :: t ∧
      t.all isHexCh = true) ∧
    ((stripHexPfx data).data ≠ [] → (stripHexPfx data).data.all isHexCh = true →
      normalizeMessageData data = addHexPfx (stripHexPfx data) ∧
      normalizeMessageData data = String.mk ('0' :: 'x' :: (stripHexPfx data).data)) ∧
    (¬((stripHexPfx data).data ≠ [] ∧ (stripHexPfx data).data.all isHexCh = true) →
      normalizeMessageData data = bufferToHex (utf8Encode data)) := by
  by_cases h : (stripHexPfx data).data ≠ [] ∧ (stripHexPfx data).data.all isHexCh = true
  · obtain ⟨h1, h2⟩ := h
    have hpfx : hasHexPfx (stripHexPfx data) = false := hasHexPfx_of_allHex _ h2
    have hval : normalizeMessageData data = addHexPfx (stripHexPfx data) := by
      unfold normalizeMessageData; rw [if_pos ⟨h1, h2⟩]
    have hadd : addHexPfx (stripHexPfx data) =
        String.mk ('0' :: 'x' :: (stripHexPfx data).data) := by
      unfold addHexPfx; rw [hpfx]; simp
    refine ⟨⟨(stripHexPfx data).data, ?_, h2⟩,
      fun _ _ => ⟨hval, hval.trans hadd⟩, fun hc => absurd ⟨h1, h2⟩ hc⟩
    rw [hval, hadd]
  · have hval : normalizeMessageData data = bufferToHex (utf8Encode data) := by
      unfold normalizeMessageData; rw [if_neg h]
    refine ⟨⟨(utf8Encode data).flatMap byteToHexChars, ?_, bufferToHex_all_hex _⟩,
      ?_, fun _ => hval⟩
    · rw [hval]; rfl
    · intro h1 h2; exact absurd ⟨h1, h2⟩ h

theorem normalizeMessageData_spec_witness :
    (normalizeMessageData "0x12ab" = addHexPfx (stripHexPfx "0x12ab") ∧
      normalizeMessageData "0x12ab" = String.mk ('0' :: 'x' :: (stripHexPfx "0x12ab").data)) ∧
    normalizeMessageData "hi!" = bufferToHex (utf8Encode "hi!") :=
  ⟨(normalizeMessageData_spec "0x12ab").2.1 (by decide) (by decide),
    (normalizeMessageData_spec "hi!").2.2 (by decide)⟩

/-! ### `safelyExecute` (C8) -/

/-- C8: `safelyExecute` never rejects — its outcome is always a
resolution; when the operation resolves it resolves with the operation's
value (and `retry` is not invoked), and when the operation rejects it
invokes `retry` (exactly when supplied) with the error and resolves with
`undefined`. -/
theorem safelyExecute_spec {ε α : Type} (op : Except ε α) (logErr : Bool)
    (retry : Option (ε → Unit)) :
    (∃ r, (safelyExecute op logErr retry).outcome = .ok r) ∧
    (∀ v, op = .ok v → safelyExecute op logErr retry = ⟨.ok (some v), []⟩) ∧
    (∀ e, op = .error e →
      (safelyExecute op logErr retry).outcome = .ok none ∧
      (safelyExecute op logErr retry).retried =
        (if retry.isSome then [e] else [])) := by
  refine ⟨?_, ?_, ?_⟩
  · cases op with
    | ok v => exact ⟨some v, rfl⟩
    | error e => cases retry with
      | some f => exact ⟨none, rfl⟩
      | none => exact ⟨none, rfl⟩
  · intro v hv; subst hv; rfl
  · intro e he; subst he
    cases retry with
    | some f => exact ⟨rfl, rfl⟩
    | none => exact ⟨rfl, rfl⟩

/-! ### Keyring Controller: basic lemmas -/

theorem persist_isUnlocked (s : KCState) : (persist s).isUnlocked = s.isUnlocked := by
  unfold persist; cases hp : s.password <;> rfl

theorem persist_keyrings (s : KCState) : (persist s).keyrings = s.keyrings := by
  unfold persist; cases hp : s.password <;> rfl

theorem persist_password (s : KCState) : (persist s).password = s.password := by
  unfold persist; cases hp : s.password <;> simp [hp]

theorem persist_vault (s : KCState) (p : String) (hp : s.password = some p) :
    (persist s).vault = some ⟨p, s.keyrings⟩ := by
  unfold persist; rw [hp]

theorem createNewVaultAndRestore_ok {P : Provider} {pw seed : String}
    {s s' : KCState} (h : createNewVaultAndRestore P pw seed s = .ok s') :
    s' = persist { s with
      isUnlocked := true
      password := some pw
      keyrings := [⟨hdKeyTreeType, [P.deriveFromSeed seed]⟩] } := by
  unfold createNewVaultAndRestore at h
  split at h
  · injection h with h; exact h.symm
  · exact Except.noConfusion h

theorem submitPassword_ok {s s' : KCState} {pw : String}
    (h : submitPassword s pw = .ok s') :
    ∃ b, s.vault = some b ∧ pw = b.password ∧
      s' = { s with isUnlocked := true, password := some pw, keyrings := b.contents } := by
  unfold submitPassword at h
  split at h
  · exact Except.noConfusion h
  · next b hb =>
    split at h
    · next hpw => injection h with h; exact ⟨b, hb, hpw, h.symm⟩
    · exact Except.noConfusion h

theorem addNewAccount_ok {P : Provider} {s s' : KCState}
    (h : addNewAccount P s = .ok s') :
    s.isUnlocked = true ∧ ∃ k rest, s.keyrings = k :: rest ∧
      s' = persist { s with
        keyrings := ⟨k.type, k.accounts ++ [P.deriveNext k.accounts]⟩ :: rest } := by
  unfold addNewAccount at h
  split at h
  · next hU =>
    split at h
    · exact Except.noConfusion h
    · next k rest hks =>
      injection h with h
      exact ⟨hU, k, rest, hks, h.symm⟩
  · exact Except.noConfusion h

theorem importAccountWithStrategy_ok {P : Provider} {s s' : KCState}
    {strategy : ImportStrategy} {args : List String}
    (h : importAccountWithStrategy P s strategy args = .ok s') :
    s.isUnlocked = true ∧ ∃ newk,
      s' = persist { s with keyrings := s.keyrings ++ [newk] } := by
  unfold importAccountWithStrategy at h
  split at h
  · next hU =>
    refine ⟨hU, ?_⟩
    cases strategy with
    | privateKey =>
      cases args with
      | nil => exact Except.noConfusion h
      | cons pk rest =>
        simp only [] at h
        split at h
        · exact Except.noConfusion h
        · split at h
          · injection h with h
            exact ⟨⟨simpleKeyPairType, [P.privToAddr pk]⟩, h.symm⟩
          · exact Except.noConfusion h
    | json =>
      cases args with
      | nil => exact Except.noConfusion h
      | cons a rest =>
        cases rest with
        | nil => exact Except.noConfusion h
        | cons b rest' =>
          simp only [] at h
          split at h
          · next pk hdec =>
            injection h with h
            exact ⟨⟨simpleKeyPairType, [P.privToAddr pk]⟩, h.symm⟩
          · exact Except.noConfusion h
  · exact Except.noConfusion h

theorem removeAccount_ok {s s' : KCState} {addr : String}
    (h : removeAccount s addr = .ok s') :
    s.isUnlocked = true ∧ ∃ ks, removeFromKeyrings s.keyrings addr true = some ks ∧
      s' = persist { s with keyrings := ks } := by
  unfold removeAccount at h
  split at h
  · next hU =>
    split at h
    · exact Except.noConfusion h
    · next ks hks =>
      injection h with h
      exact ⟨hU, ks, hks, h.symm⟩
  · exact Except.noConfusion h

/-- Removal scanned with the primary flag set never empties the keyring
sequence: the primary keyring is retained even when emptied. -/
theorem removeFromKeyrings_ne_nil {ks ks' : List Keyring} {addr : String}
    (h : removeFromKeyrings ks addr true = some ks') : ks' ≠ [] := by
  cases ks with
  | nil => exact Option.noConfusion h
  | cons k rest =>
    unfold removeFromKeyrings at h
    split at h
    · injection h with h
      simp only [Bool.not_true, Bool.and_false, if_neg (Bool.false_ne_true)] at h
      rw [← h]
      exact List.cons_ne_nil _ _
    · obtain ⟨a, -, ha⟩ := Option.map_eq_some'.mp h
      rw [← ha]
      exact List.cons_ne_nil _ _

/-- Persisting an unlocked state with a known password and a non-empty
keyring sequence satisfies the invariant. -/
theorem inv_persist_unlocked (s : KCState) (p : String) (hp : s.password = some p)
    (hU : s.isUnlocked = true) (hne : s.keyrings ≠ []) : Inv (persist s) := by
  refine ⟨?_, ?_, ?_⟩
  · rw [persist_isUnlocked, persist_keyrings, hU]
    exact ⟨fun _ => hne, fun _ => rfl⟩
  · intro _
    refine ⟨p, ?_, ?_⟩
    · rw [persist_password]; exact hp
    · rw [persist_keyrings]; exact persist_vault s p hp
  · intro b hb
    rw [persist_vault s p hp] at hb
    injection hb with hb
    rw [← hb]
    exact hne

/-- Every reachable controller state satisfies the invariant. -/
theorem reachable_inv {P : Provider} {s : KCState} (h : Reachable P s) : Inv s := by
  induction h with
  | init =>
    refine ⟨by simp [initialState], by simp [initialState], ?_⟩
    intro b hb
    simp [initialState] at hb
  | createKeychain s pw hr ih =>
    apply inv_persist_unlocked _ pw rfl rfl
    simp
  | createRestore s pw seed s' hr hok ih =>
    obtain rfl := createNewVaultAndRestore_ok hok
    apply inv_persist_unlocked _ pw rfl rfl
    simp
  | submit s pw s' hr hok ih =>
    obtain ⟨b, hv, hpw, rfl⟩ := submitPassword_ok hok
    obtain ⟨ih1, ih2, ih3⟩ := ih
    refine ⟨⟨fun _ => ih3 b hv, fun _ => rfl⟩, ?_, fun b' hb' => ih3 b' hb'⟩
    intro _
    refine ⟨pw, rfl, ?_⟩
    show s.vault = some ⟨pw, b.contents⟩
    rw [hv, hpw]
  | lock s hr ih =>
    obtain ⟨-, -, ih3⟩ := ih
    exact ⟨by simp [setLocked], by simp [setLocked], fun b hb => ih3 b hb⟩
  | newAccount s s' hr hok ih =>
    obtain ⟨hU, k, rest, hks, rfl⟩ := addNewAccount_ok hok
    obtain ⟨-, ih2, -⟩ := ih
    obtain ⟨p, hp, -⟩ := ih2 hU
    exact inv_persist_unlocked _ p hp hU (by simp)
  | importAcc s strategy args s' hr hok ih =>
    obtain ⟨hU, newk, rfl⟩ := importAccountWithStrategy_ok hok
    obtain ⟨-, ih2, -⟩ := ih
    obtain ⟨p, hp, -⟩ := ih2 hU
    exact inv_persist_unlocked _ p hp hU (by simp)
  | removeAcc s addr s' hr hok ih =>
    obtain ⟨hU, ks, hks, rfl⟩ := removeAccount_ok hok
    obtain ⟨-, ih2, -⟩ := ih
    obtain ⟨p, hp, -⟩ := ih2 hU
    exact inv_persist_unlocked _ p hp hU (removeFromKeyrings_ne_nil hks)

/-! ### C1: the lock bit mirrors the in-memory keyring sequence -/

/-- C1: for every reachable state of the Keyring Controller, the
`PublicState` field `isUnlocked` is true iff the in-memory keyring sequence
is non-empty, and false iff that sequence has been cleared; and after
`setLocked()` the controller reports `isUnlocked = false`. -/
theorem keyringController_isUnlocked_iff :
    (∀ (P : Provider) (s : KCState), Reachable P s →
      (((getState s).isUnlocked = true ↔ s.keyrings ≠ []) ∧
        ((getState s).isUnlocked = false ↔ s.keyrings = []))) ∧
    (∀ s : KCState, (getState (setLocked s)).isUnlocked = false) := by
  constructor
  · intro P s h
    obtain ⟨h1, -, -⟩ := reachable_inv h
    have hg : (getState s).isUnlocked = s.isUnlocked := rfl
    refine ⟨by rw [hg]; exact h1, ?_⟩
    rw [hg]
    constructor
    · intro hf
      by_contra hne
      rw [h1.mpr hne] at hf
      cases hf
    · intro hnil
      cases hu : s.isUnlocked with
      | false => rfl
      | true => exact absurd hnil (h1.mp hu)
  · intro s; rfl

theorem keyringController_isUnlocked_iff_witness :
    ((getState (createNewVaultAndKeychain trivProvider "pw" initialState)).isUnlocked = true ↔
      (createNewVaultAndKeychain trivProvider "pw" initialState).keyrings ≠ []) ∧
    ((getState (createNewVaultAndKeychain trivProvider "pw" initialState)).isUnlocked = false ↔
      (createNewVaultAndKeychain trivProvider "pw" initialState).keyrings = []) :=
  keyringController_isUnlocked_iff.1 trivProvider _
    (Reachable.createKeychain initialState "pw" Reachable.init)

/-! ### C2: lock / submitPassword round trip -/

/-- C2: for every reachable unlocked state whose vault password is `pw`,
calling `setLocked()` and then `submitPassword(pw)` yields a `PublicState`
bit-for-bit equal to the `PublicState` immediately before locking, and
`submitPassword` with any wrong password rejects with a CryptoError while
the controller remains Locked. -/
theorem lock_then_submitPassword (P : Provider) (s : KCState) (pw : String)
    (h : Reachable P s) (hU : s.isUnlocked = true) (hpw : s.password = some pw) :
    (∃ s', submitPassword (setLocked s) pw = .ok s' ∧ getState s' = getState s) ∧
    (∀ wrong, wrong ≠ pw →
      (∃ m, submitPassword (setLocked s) wrong = .error (KError.crypto m)) ∧
      (getState (setLocked s)).isUnlocked = false) := by
  obtain ⟨-, h2, -⟩ := reachable_inv h
  obtain ⟨p, hp, hv⟩ := h2 hU
  rw [hpw] at hp
  injection hp with hpe
  subst hpe
  have hsv : (setLocked s).vault = some ⟨pw, s.keyrings⟩ := hv
  constructor
  · refine ⟨{ setLocked s with isUnlocked := true, password := some pw, keyrings := s.keyrings }, ?_, ?_⟩
    · unfold submitPassword
      rw [hsv]
      simp [setLocked, hv]
    · simp only [getState, setLocked]
      rw [hU]
  · intro wrong hw
    constructor
    · refine ⟨"Incorrect password", ?_⟩
      unfold submitPassword
      rw [hsv]
      simp [hw]
    · rfl

theorem lock_then_submitPassword_witness :
    ∃ s', submitPassword (setLocked (createNewVaultAndKeychain trivProvider "pw" initialState)) "pw" = .ok s' ∧
      getState s' = getState (createNewVaultAndKeychain trivProvider "pw" initialState) :=
  (lock_then_submitPassword trivProvider _ "pw"
    (Reachable.createKeychain initialState "pw" Reachable.init) rfl rfl).1

/-! ### C3: importAccountWithStrategy with the privateKey strategy -/

theorem isValidPrivateKeyHex_ne_empty {pk : String}
    (h : isValidPrivateKeyHex pk = true) : pk ≠ "" := by
  intro he
  subst he
  exact absurd h (by decide)

/-- C3: `importAccountWithStrategy('privateKey', args)` rejects with
message exactly "Cannot import an empty key." when `args` is empty or its
first element is empty; rejects with message exactly "Cannot import
invalid private key." when `args[0]` is not a validly hex-encoded private
key; and for a valid private key appends exactly one new keyring of the
raw-imported (`'Simple Key Pair'`) type whose single account is the
address derived from that key, leaving every previously existing keyring
unchanged in the returned `PublicState`. -/
theorem importAccountWithStrategy_privateKey_spec (P : Provider) (s : KCState)
    (args : List String) (hU : s.isUnlocked = true) :
    ((args = [] ∨ args.head? = some "") →
      importAccountWithStrategy P s .privateKey args =
        .error (.validation "Cannot import an empty key.")) ∧
    (∀ pk rest, args = pk :: rest → pk ≠ "" → isValidPrivateKeyHex pk = false →
      importAccountWithStrategy P s .privateKey args =
        .error (.validation "Cannot import invalid private key.")) ∧
    (∀ pk rest, args = pk :: rest → isValidPrivateKeyHex pk = true →
      ∃ s', importAccountWithStrategy P s .privateKey args = .ok s' ∧
        (getState s').keyrings =
          (getState s).keyrings ++ [⟨simpleKeyPairType, [P.privToAddr pk]⟩] ∧
        (getState s').isUnlocked = true) := by
  refine ⟨?_, ?_, ?_⟩
  · intro hemp
    rcases hemp with rfl | hhd
    · unfold importAccountWithStrategy
      rw [if_pos hU]
    · cases args with
      | nil => cases hhd
      | cons pk rest =>
        injection hhd with hhd
        subst hhd
        unfold importAccountWithStrategy
        rw [if_pos hU]
        simp
  · intro pk rest hargs hne hinv
    subst hargs
    unfold importAccountWithStrategy
    rw [if_pos hU]
    simp only []
    rw [if_neg hne, if_neg (by rw [hinv]; exact Bool.false_ne_true)]
  · intro pk rest hargs hval
    subst hargs
    refine ⟨persist { s with keyrings := s.keyrings ++ [⟨simpleKeyPairType, [P.privToAddr pk]⟩] }, ?_, ?_, ?_⟩
    · unfold importAccountWithStrategy
      rw [if_pos hU]
      simp only []
      rw [if_neg (isValidPrivateKeyHex_ne_empty hval), if_pos hval]
    · show (persist _).keyrings.map _ = _
      rw [persist_keyrings]
      simp [getState]
    · show (persist _).isUnlocked = true
      rw [persist_isUnlocked]
      exact hU

theorem importAccountWithStrategy_privateKey_spec_witness :
    ∃ s', importAccountWithStrategy trivProvider
        (createNewVaultAndKeychain trivProvider "pw" initialState)
        .privateKey [sampleKey] = .ok s' ∧
      (getState s').keyrings =
        (getState (createNewVaultAndKeychain trivProvider "pw" initialState)).keyrings ++
          [⟨simpleKeyPairType, [trivProvider.privToAddr sampleKey]⟩] ∧
      (getState s').isUnlocked = true :=
  (importAccountWithStrategy_privateKey_spec trivProvider _ [sampleKey] rfl).2.2
    sampleKey [] rfl (by decide)

/-! ### C4: V3 typed-message validation -/

/-- C4: `validateTypedSignMessageDataV3` accepts `messageData` iff
`messageData.from` is a non-empty string that is a valid address,
`messageData.data` is a non-empty string parsing as JSON, and the parsed
value validates against the EIP-712 schema with zero errors; in every
other case it throws before any signing occurs (the typed-signing entry
point rejects with the validator's message, never consulting the signing
provider). -/
theorem validateTypedSignMessageDataV3_spec {J : Type} (env : CryptoEnv J)
    (md : TypedMessageParams) :
    (validateTypedSignMessageDataV3 env md = .ok () ↔
      (md.fromAddr ≠ "" ∧ env.isValidAddress md.fromAddr = true ∧
        ∃ s, md.data = .str s ∧ s ≠ "" ∧
          ∃ j, env.parseJSON s = some j ∧ env.schemaNumErrors j = 0)) ∧
    (∀ m, validateTypedSignMessageDataV3 env md = .error m →
      ∀ (P : Provider) (st : KCState),
        signTypedMessage env P st md .V3 = .error (typedSignContextTag ++ " " ++ m)) := by
  constructor
  · unfold validateTypedSignMessageDataV3
    split
    · next hcond =>
      constructor
      · intro h; exact Except.noConfusion h
      · rintro ⟨h1, h2, -⟩
        rcases hcond with hc | hc
        · exact absurd hc h1
        · rw [h2] at hc; cases hc
    · next hcond =>
      have hne : md.fromAddr ≠ "" := fun he => hcond (Or.inl he)
      have hval : env.isValidAddress md.fromAddr = true := by
        cases hb : env.isValidAddress md.fromAddr
        · exact absurd (Or.inr hb) hcond
        · rfl
      cases hdata : md.data with
      | arr l =>
        dsimp only
        constructor
        · intro h; exact Except.noConfusion h
        · rintro ⟨-, -, s0, hs, -⟩
          exact MsgData.noConfusion hs
      | str s0 =>
        dsimp only
        by_cases hs0 : s0 = ""
        · rw [if_pos hs0]
          constructor
          · intro h; exact Except.noConfusion h
          · rintro ⟨-, -, s1, hs, hne1, -⟩
            injection hs with hs
            exact absurd (hs.symm.trans hs0) hne1
        · rw [if_neg hs0]
          cases hparse : env.parseJSON s0 with
          | none =>
            constructor
            · intro h; exact Except.noConfusion h
            · rintro ⟨-, -, s1, hs, -, j, hj, -⟩
              injection hs with hs
              rw [← hs, hparse] at hj
              exact Option.noConfusion hj
          | some j =>
            dsimp only
            by_cases herr : env.schemaNumErrors j > 0
            · rw [if_pos herr]
              constructor
              · intro h; exact Except.noConfusion h
              · rintro ⟨-, -, s1, hs, -, j', hj', hz⟩
                injection hs with hs
                rw [← hs, hparse] at hj'
                injection hj' with hj'
                rw [← hj'] at hz
                omega
            · rw [if_neg herr]
              constructor
              · intro _
                exact ⟨hne, hval, s0, rfl, hs0, j, hparse, by omega⟩
              · intro _; rfl
  · intro m hm P st
    simp only [signTypedMessage, signTypedMessageInner, hm]

theorem validateTypedSignMessageDataV3_spec_witness :
    validateTypedSignMessageDataV3 trivEnv ⟨"0xa0", .str "j"⟩ = .ok () :=
  (validateTypedSignMessageDataV3_spec trivEnv ⟨"0xa0", .str "j"⟩).1.mpr
    ⟨by decide, by decide, "j", rfl, by decide, (), by decide, by decide⟩

/-! ### C5: V1 typed-message validation -/

/-- C5: `validateTypedSignMessageDataV1` accepts `messageData` iff
`messageData.from` is a non-empty string that is a valid address,
`messageData.data` is a non-empty array, and the structured-data hash
(`typedSignatureHash`) of the data succeeds; when the hash computation
fails it throws with message "Expected EIP712 typed data.", and in every
failing case it throws before any signing occurs.  The hypothesis records
that `eth-sig-util`'s `typedSignatureHash` throws on an empty array. -/
theorem validateTypedSignMessageDataV1_spec {J : Type} (env : CryptoEnv J)
    (md : TypedMessageParams) (hEmpty : env.typedSigHash [] = none) :
    (validateTypedSignMessageDataV1 env md = .ok () ↔
      (md.fromAddr ≠ "" ∧ env.isValidAddress md.fromAddr = true ∧
        ∃ l, md.data = .arr l ∧ l ≠ [] ∧ (env.typedSigHash l).isSome = true)) ∧
    (∀ l, md.data = .arr l → md.fromAddr ≠ "" → env.isValidAddress md.fromAddr = true →
      env.typedSigHash l = none →
      validateTypedSignMessageDataV1 env md = .error "Expected EIP712 typed data.") ∧
    (∀ m, validateTypedSignMessageDataV1 env md = .error m →
      ∀ (P : Provider) (st : KCState),
        signTypedMessage env P st md .V1 = .error (typedSignContextTag ++ " " ++ m)) := by
  refine ⟨?_, ?_, ?_⟩
  · unfold validateTypedSignMessageDataV1
    split
    · next hcond =>
      constructor
      · intro h; exact Except.noConfusion h
      · rintro ⟨h1, h2, -⟩
        rcases hcond with hc | hc
        · exact absurd hc h1
        · rw [h2] at hc; cases hc
    · next hcond =>
      have hne : md.fromAddr ≠ "" := fun he => hcond (Or.inl he)
      have hval : env.isValidAddress md.fromAddr = true := by
        cases hb : env.isValidAddress md.fromAddr
        · exact absurd (Or.inr hb) hcond
        · rfl
      cases hdata : md.data with
      | str s0 =>
        dsimp only
        constructor
        · intro h; exact Except.noConfusion h
        · rintro ⟨-, -, l, hs, -⟩
          exact MsgData.noConfusion hs
      | arr l =>
        dsimp only
        cases hhash : env.typedSigHash l with
        | none =>
          constructor
          · intro h; exact Except.noConfusion h
          · rintro ⟨-, -, l', hl, -, hsome⟩
            injection hl with hl
            rw [← hl, hhash] at hsome
            cases hsome
        | some hv =>
          constructor
          · intro _
            refine ⟨hne, hval, l, rfl, ?_, by rw [hhash]; rfl⟩
            intro hnil
            rw [hnil, hEmpty] at hhash
            exact Option.noConfusion hhash
          · intro _; rfl
  · intro l hl hne hval hhash
    unfold validateTypedSignMessageDataV1
    rw [if_neg ?_]
    · rw [hl]
      dsimp only
      rw [hhash]
    · rintro (hc | hc)
      · exact hne hc
      · rw [hval] at hc; cases hc
  · intro m hm P st
    simp only [signTypedMessage, signTypedMessageInner, hm]

theorem validateTypedSignMessageDataV1_spec_witness :
    validateTypedSignMessageDataV1 trivEnv
      ⟨"0xa0", .arr [⟨"string", "m", "v"⟩]⟩ = .ok () :=
  (validateTypedSignMessageDataV1_spec trivEnv
      ⟨"0xa0", .arr [⟨"string", "m", "v"⟩]⟩ (by decide)).1.mpr
    ⟨by decide, by decide, [⟨"string", "m", "v"⟩], rfl, by decide, by decide⟩

/-! ### C6: typed-signing failures carry the fixed context tag -/

/-- C6: for every malformed data payload and every owned `from` address,
`signTypedMessage` under both versions rejects with a single error whose
message contains (indeed, starts with) the fixed context prefix
"Keyring Controller signTypedMessage:", uniformly for locate-keyring,
schema and provider failures (the first conjunct covers every error the
operation can produce). -/
theorem signTypedMessage_context_tag {J : Type} (env : CryptoEnv J) (P : Provider)
    (s : KCState) (md : TypedMessageParams) (hOwn : md.fromAddr ∈ getAccounts s) :
    (∀ (v : TypedVersion) (m : String), signTypedMessage env P s md v = .error m →
      ∃ inner, m = typedSignContextTag ++ inner) ∧
    (∀ e, validateTypedSignMessageDataV1 env md = .error e →
      ∃ m, signTypedMessage env P s md .V1 = .error m ∧
        ∃ inner, m = typedSignContextTag ++ inner) ∧
    (∀ e, validateTypedSignMessageDataV3 env md = .error e →
      ∃ m, signTypedMessage env P s md .V3 = .error m ∧
        ∃ inner, m = typedSignContextTag ++ inner) := by
  have hOwn' := hOwn
  refine ⟨?_, ?_, ?_⟩
  · intro v m hm
    unfold signTypedMessage at hm
    cases hin : signTypedMessageInner env P s md v with
    | ok sig => rw [hin] at hm; exact Except.noConfusion hm
    | error m' =>
      rw [hin] at hm
      injection hm with hm
      exact ⟨" " ++ m', by rw [← hm, String.append_assoc]⟩
  · intro e he
    refine ⟨typedSignContextTag ++ " " ++ e, ?_, ⟨" " ++ e, String.append_assoc _ _ _⟩⟩
    simp only [signTypedMessage, signTypedMessageInner, he]
  · intro e he
    refine ⟨typedSignContextTag ++ " " ++ e, ?_, ⟨" " ++ e, String.append_assoc _ _ _⟩⟩
    simp only [signTypedMessage, signTypedMessageInner, he]

theorem signTypedMessage_context_tag_witness :
    ∃ m, signTypedMessage trivEnv trivProvider
        (createNewVaultAndKeychain trivProvider "pw" initialState)
        ⟨"0xa0", .arr []⟩ .V1 = .error m ∧
      ∃ inner, m = typedSignContextTag ++ inner :=
  (signTypedMessage_context_tag trivEnv trivProvider
      (createNewVaultAndKeychain trivProvider "pw" initialState)
      ⟨"0xa0", .arr []⟩ (by decide)).2.1
    "Expected EIP712 typed data." rfl

/-! ### C7: removeAccount -/

/-- After a successful removal scan, the removed address is absent from
every remaining keyring (addresses are unique across keyrings by the
state invariant). -/
theorem removeFromKeyrings_not_mem (addr : String) :
    ∀ (ks : List Keyring) (prim : Bool) (ks' : List Keyring),
      (ks.flatMap Keyring.accounts).Nodup →
      removeFromKeyrings ks addr prim = some ks' →
      addr ∉ ks'.flatMap Keyring.accounts := by
  intro ks
  induction ks with
  | nil => intro prim ks' _ h; exact Option.noConfusion h
  | cons k rest ih =>
    intro prim ks' hNd h
    rw [List.flatMap_cons] at hNd
    obtain ⟨-, hnd2, hdisj⟩ := List.nodup_append.mp hNd
    unfold removeFromKeyrings at h
    split at h
    · next hmem =>
      injection h with h
      rw [← h]
      split
      · exact fun hin => hdisj hmem hin
      · rw [List.flatMap_cons]
        intro hin
        rcases List.mem_append.mp hin with hin' | hin'
        · simp at hin'
        · exact hdisj hmem hin'
    · next hnmem =>
      obtain ⟨a, hrec, ha⟩ := Option.map_eq_some'.mp h
      rw [← ha, List.flatMap_cons]
      intro hin
      rcases List.mem_append.mp hin with hin' | hin'
      · exact hnmem hin'
      · exact ih false a hnd2 hrec hin'

/-- When the sole owner of `addr` is the keyring at index `i` and its
account list is exactly `[addr]`, the removal scan deletes that keyring
(provided it is not the primary keyring when the flag demands it). -/
theorem removeFromKeyrings_eraseIdx (addr : String) :
    ∀ (ks : List Keyring) (i : Nat) (k : Keyring) (prim : Bool),
      (ks.flatMap Keyring.accounts).Nodup →
      ks[i]? = some k → k.accounts = [addr] → (prim = true → 0 < i) →
      removeFromKeyrings ks addr prim = some (ks.eraseIdx i) := by
  intro ks
  induction ks with
  | nil => intro i k prim _ hget; simp at hget
  | cons kh rest ih =>
    intro i k prim hNd hget hacc hprim
    cases i with
    | zero =>
      have hpf : prim = false := by
        cases prim
        · rfl
        · exact absurd (hprim rfl) (lt_irrefl 0)
      subst hpf
      rw [List.getElem?_cons_zero] at hget
      injection hget with hget
      subst hget
      have hmem : addr ∈ kh.accounts := by rw [hacc]; exact List.mem_singleton.mpr rfl
      unfold removeFromKeyrings
      rw [if_pos hmem, hacc]
      simp
    | succ j =>
      rw [List.getElem?_cons_succ] at hget
      have hkmem : k ∈ rest := List.getElem?_mem hget
      have haddr_rest : addr ∈ rest.flatMap Keyring.accounts :=
        List.mem_flatMap.mpr ⟨k, hkmem, by rw [hacc]; exact List.mem_singleton.mpr rfl⟩
      rw [List.flatMap_cons] at hNd
      obtain ⟨-, hnd2, hdisj⟩ := List.nodup_append.mp hNd
      have hnmem : addr ∉ kh.accounts := fun hin => hdisj hin haddr_rest
      unfold removeFromKeyrings
      rw [if_neg hnmem,
        ih j k false hnd2 hget hacc (fun hc => absurd hc Bool.false_ne_true)]
      rw [List.eraseIdx_cons_succ]
      rfl

/-- C7: for an address owned by some keyring in a state satisfying the
uniqueness invariant, after `removeAccount(addr)` succeeds `getAccounts()`
does not contain `addr`; and when `addr` was the last (single) account of
a non-primary keyring at index `i > 0`, that keyring is absent — the
keyring sequence afterwards is the original with index `i` erased. -/
theorem removeAccount_spec (s : KCState) (addr : String)
    (hNd : (getAccounts s).Nodup) :
    (∀ s', removeAccount s addr = .ok s' → addr ∉ getAccounts s') ∧
    (∀ i k, s.keyrings[i]? = some k → 0 < i → k.accounts = [addr] →
      s.isUnlocked = true →
      ∃ s', removeAccount s addr = .ok s' ∧
        s'.keyrings = s.keyrings.eraseIdx i) := by
  constructor
  · intro s' hok
    obtain ⟨hU, ks, hks, rfl⟩ := removeAccount_ok hok
    have hga : getAccounts (persist { s with keyrings := ks }) =
        ks.flatMap Keyring.accounts := by
      unfold getAccounts; rw [persist_keyrings]
    rw [hga]
    exact removeFromKeyrings_not_mem addr s.keyrings true ks hNd hks
  · intro i k hget hi hacc hU
    have hrm := removeFromKeyrings_eraseIdx addr s.keyrings i k true hNd hget hacc
      (fun _ => hi)
    refine ⟨persist { s with keyrings := s.keyrings.eraseIdx i }, ?_, ?_⟩
    · unfold removeAccount
      rw [if_pos hU, hrm]
    · exact persist_keyrings _

theorem removeAccount_spec_witness :
    ∃ s', removeAccount twoKeyringState "0xb" = .ok s' ∧
      s'.keyrings = twoKeyringState.keyrings.eraseIdx 1 :=
  (removeAccount_spec twoKeyringState "0xb" (by decide)).2 1
    ⟨simpleKeyPairType, ["0xb"]⟩ (by decide) (by decide) rfl rfl

theorem safelyExecute_spec_witness :
    (safelyExecute (.ok 7 : Except String Nat) false none =
      ⟨.ok (some 7), []⟩) ∧
    ((safelyExecute (.error "boom" : Except String Nat) false
        (some fun _ => ())).outcome = .ok none) :=
  ⟨(safelyExecute_spec (.ok 7) false none).2.1 7 rfl,
    ((safelyExecute_spec (.error "boom") false (some fun _ => ())).2.2
      "boom" rfl).1⟩

end Gaba
